import Mathlib

/-!
Shallow embedding of the MediaShuffler program (`MediaShuffler.py`) together
with proofs about its catalog store, scanner/cleanup, selector, dispatch
flow and schedule parsing.

Modelling conventions:
* the SQLite tables `media` and `sent_media` are lists of rows in table
  (insertion) order; the implicit SQLite rowid / `INTEGER PRIMARY KEY` is an
  explicit `next_id` counter on the database state;
* `datetime.now()` is a monotone `Nat` counter `clock` on the database state
  (each call reads the counter and advances it);
* the filesystem below the configured scan root is a list of relative path
  strings; every listed path is a regular file (`Path.is_file()` holds for
  all of them, symlinks and directories are not modelled), so `rglob`
  enumerates exactly this list;
* Python exceptions are `Except String` values whose payload is the
  exception message; `sqlite3` raises on a violated UNIQUE constraint;
* the `get_db` context manager runs `conn_pool.commit()` in a `finally:`
  block, i.e. it commits whatever statements already executed even when the
  body raises; operations below therefore return the state produced by the
  statements that ran before the failure, paired with an optional error.
-/

namespace MediaShuffler

/-- Row of the `media` table:
`id INTEGER PRIMARY KEY, path TEXT UNIQUE, created_at DATETIME,
is_deleted BOOLEAN DEFAULT 0`. -/
structure MediaRow where
  id : Nat
  path : String
  created_at : Nat
  is_deleted : Bool
deriving DecidableEq

/-- Row of the `sent_media` table: `media_id INTEGER, sent_at DATETIME`. -/
structure SentRow where
  media_id : Nat
  sent_at : Nat
deriving DecidableEq

/-- The SQLite database `media.db`: both tables, the id counter backing
`INTEGER PRIMARY KEY`, and the clock backing `datetime.now()`. -/
structure DB where
  media : List MediaRow
  sent_media : List SentRow
  next_id : Nat
  clock : Nat
deriving DecidableEq

/-- The `keep_1000_records` trigger, `AFTER INSERT ON sent_media`:
`DELETE FROM sent_media WHERE rowid IN
(SELECT rowid FROM sent_media ORDER BY sent_at DESC LIMIT -1 OFFSET 1000)`.
The subquery selects every row after the first 1000 in `sent_at`-descending
order, i.e. (for pairwise-distinct `sent_at` values, the only case in which
SQLite's ordering between tied rows would be determined) exactly the rows
that have at least 1000 strictly newer rows.  The trigger deletes those
rows, keeping the rest in table order. -/
def keep_1000_records (rows : List SentRow) : List SentRow :=
  rows.filter (fun r => rows.countP (fun s => r.sent_at < s.sent_at) < 1000)

/-- `BotCommands._update_sent_records`:
`INSERT INTO sent_media VALUES (media_id, datetime.now())`, after which the
`keep_1000_records` trigger fires on the whole table. -/
def update_sent_records (db : DB) (media_id : Nat) : DB :=
  { db with
    sent_media := keep_1000_records (db.sent_media ++ [⟨media_id, db.clock⟩]),
    clock := db.clock + 1 }

/-- The rows a sequence of `record_sent` inserts appends, starting at clock
value `c`: the k-th insert carries timestamp `c + k`.  Used only to state
the rolling-window property. -/
def insertedRows (c : Nat) : List Nat → List SentRow
  | [] => []
  | mid :: mids => ⟨mid, c⟩ :: insertedRows (c + 1) mids

/-- The rows matched by the WHERE clause of `BotCommands._get_random_media`:
`m.is_deleted=0 AND s.media_id IS NULL` over
`media m LEFT JOIN sent_media s ON m.id = s.media_id`, i.e. non-deleted
rows without any sent record. -/
def sendableRows (db : DB) : List MediaRow :=
  db.media.filter (fun m => !m.is_deleted && db.sent_media.all (fun s => s.media_id != m.id))

/-- `BotCommands._get_random_media`:
`SELECT m.id, m.path FROM media m LEFT JOIN sent_media s ON m.id = s.media_id
WHERE m.is_deleted=0 AND s.media_id IS NULL ORDER BY RANDOM() LIMIT 1`.
`ORDER BY RANDOM() LIMIT 1` draws one of the matching rows; the draw is
modelled by an index `k` (reduced mod the number of candidates), so a
uniformly distributed `k` yields a uniformly distributed row. -/
def get_random_media (db : DB) (k : Nat) : Option (Nat × String) :=
  if h : (sendableRows db).length = 0 then none
  else
    some (((sendableRows db).get ⟨k % (sendableRows db).length,
        Nat.mod_lt k (Nat.pos_of_ne_zero h)⟩).id,
      ((sendableRows db).get ⟨k % (sendableRows db).length,
        Nat.mod_lt k (Nat.pos_of_ne_zero h)⟩).path)

/-- One `INSERT INTO media (path, created_at) VALUES (?, datetime.now())`.
`path TEXT UNIQUE` makes sqlite3 raise `IntegrityError` when any row —
soft-deleted or not — already holds the same path. -/
def insert_media (db : DB) (p : String) : Except String DB :=
  if db.media.any (fun m => m.path = p) then
    .error "IntegrityError: UNIQUE constraint failed: media.path"
  else
    .ok { db with
          media := db.media ++ [⟨db.next_id, p, db.clock, false⟩],
          next_id := db.next_id + 1,
          clock := db.clock + 1 }

/-- The insert loop of `MediaScanner._update_database`
(`for new_file in current_files - db_files: ...`).  A raised
`IntegrityError` aborts the loop; the rows inserted before it remain in
the connection's transaction and are committed by `get_db`'s `finally:`. -/
def insert_new_files (db : DB) (ps : List String) : DB × Option String :=
  match ps with
  | [] => (db, none)
  | p :: rest =>
    match insert_media db p with
    | .ok db2 => insert_new_files db2 rest
    | .error e => (db, some e)

/-- The soft-delete loop of `MediaScanner._update_database`
(`UPDATE media SET is_deleted=1 WHERE path=?` for each vanished path). -/
def mark_missing (db : DB) (deleted : List String) : DB :=
  { db with
    media := db.media.map (fun m =>
      if deleted.contains m.path then { m with is_deleted := true } else m) }

/-- The `db_files` query of `MediaScanner._update_database`:
`SELECT path FROM media WHERE is_deleted=0`. -/
def db_files (db : DB) : List String :=
  (db.media.filter (fun m => !m.is_deleted)).map (fun m => m.path)

/-- `MediaScanner._update_database(current_files)`.  Paths in
`current_files - db_files` are inserted (in the given iteration order of
the Python set), then paths in `db_files - current_files` are
soft-deleted.  An exception from an insert skips everything after it but
the already-executed statements are still committed (`get_db` commits in
`finally:`). -/
def update_database (db : DB) (current : List String) : DB × Option String :=
  match (insert_new_files db (current.filter (fun p => !(db_files db).contains p))).2 with
  | some e =>
    ((insert_new_files db (current.filter (fun p => !(db_files db).contains p))).1, some e)
  | none =>
    (mark_missing (insert_new_files db (current.filter (fun p => !(db_files db).contains p))).1
      ((db_files db).filter (fun p => !current.contains p)), none)

/-! ### String and path helpers

The helpers below model the `pathlib` and `str` operations the scanner
uses, over `String` as a list of characters. -/

/-- Python `str.lower()` (ASCII case folding, which is all the scanner's
extension set needs). -/
def strLower (s : String) : String :=
  ⟨s.toList.map Char.toLower⟩

/-- Substring test over char lists; backs Python's `needle in haystack`. -/
def listIsSub (needle : List Char) : List Char → Bool
  | [] => needle.isEmpty
  | c :: rest => needle.isPrefixOf (c :: rest) || listIsSub needle rest

/-- Python `needle in hay` on strings: substring containment. -/
def strContains (hay needle : String) : Bool :=
  listIsSub needle.toList hay.toList

/-- Python `s.startswith(pre)`. -/
def startsWithD (s pre : String) : Bool :=
  pre.toList.isPrefixOf s.toList

/-- Drop the first `n` characters, as Python slicing `s[n:]` does. -/
def strDrop (s : String) (n : Nat) : String :=
  ⟨s.toList.drop n⟩

/-- `PurePath.name`: the characters after the last path separator. -/
def pathName (p : String) : String :=
  ⟨((p.toList.reverse.takeWhile (fun c => c ≠ '/')).reverse)⟩

/-- `PurePath.with_name(n)`: keep everything up to and including the last
path separator, replace the final component by `n`. -/
def withName (p : String) (n : String) : String :=
  ⟨((p.toList.reverse.dropWhile (fun c => c ≠ '/')).reverse) ++ n.toList⟩

/-- Split a char list at its last `'.'`: `some (before, after)` when a dot
exists, `none` otherwise.  Backs the `rfind('.')` underlying
`PurePath.stem` and `PurePath.suffix`. -/
def splitLastDot : List Char → Option (List Char × List Char)
  | [] => none
  | c :: cs =>
    match splitLastDot cs with
    | some (bf, af) => some (c :: bf, af)
    | none => if c = '.' then some ([], cs) else none

/-- `PurePath` stem/suffix of a final path component: the name splits at
its last dot only when that dot is neither the first nor the last
character (`0 < i < len(name) - 1` in `pathlib`); otherwise the stem is
the whole name and the suffix is empty. -/
def pyStemSuffix (name : String) : String × String :=
  match splitLastDot name.toList with
  | some (bf, af) =>
    if bf ≠ [] ∧ af ≠ [] then (⟨bf⟩, ⟨'.' :: af⟩) else (name, "")
  | none => (name, "")

/-- `PurePath.stem` of the final component. -/
def pyStem (name : String) : String := (pyStemSuffix name).1

/-- `PurePath.suffix` of the final component. -/
def pySuffix (name : String) : String := (pyStemSuffix name).2

/-! ### MediaScanner -/

/-- `MediaScanner.valid_ext = {'.jpg', '.png', '.gif', '.webp', '.mp4'}`. -/
def valid_ext : List String := [".jpg", ".png", ".gif", ".webp", ".mp4"]

/-- `MediaScanner.sent_suffix = "_Sent"`. -/
def sent_suffix : String := "_Sent"

/-- `MediaScanner._is_valid_file(path)`:
extension (lower-cased) among `valid_ext`, no blacklist substring in the
final component, and a regular file (true for every modelled fs entry). -/
def is_valid_file (blacklist : List String) (p : String) : Bool :=
  valid_ext.contains (strLower (pySuffix (pathName p))) &&
  blacklist.all (fun b => !strContains (pathName p) b)

/-- The renamed path built by `MediaScanner.cleanup_sent_files`:
`new_name = f"{original_path.stem}{self.sent_suffix}{original_path.suffix}"`
and `original_path.with_name(new_name)`. -/
def renamedName (p : String) : String :=
  withName p (pyStem (pathName p) ++ sent_suffix ++ pySuffix (pathName p))

/-- The query opening `cleanup_sent_files`:
`SELECT m.path FROM media m JOIN sent_media s ON m.id = s.media_id`. -/
def sentJoinPaths (db : DB) : List String :=
  db.sent_media.flatMap (fun s =>
    (db.media.filter (fun m => m.id = s.media_id)).map (fun m => m.path))

/-- The rename loop of `cleanup_sent_files`: skip paths whose file no
longer exists, otherwise rename (POSIX `rename` replaces an existing
target) and count.  Rename failures are caught and logged in the source;
the pure filesystem model has none. -/
def renameLoop : List String → List String → Nat → List String × Nat
  | [], fs, cnt => (fs, cnt)
  | p :: rest, fs, cnt =>
    if fs.contains p then
      renameLoop rest (List.insert (renamedName p) (fs.erase p)) (cnt + 1)
    else
      renameLoop rest fs cnt

/-- Program state: the database plus the filesystem under the scan root. -/
structure SysState where
  db : DB
  fs : List String
deriving DecidableEq

/-- `MediaScanner.cleanup_sent_files`: list the sent paths, rename each
still-existing file, then `DELETE FROM sent_media` unconditionally.
Returns the new state and `renamed_count`. -/
def cleanup_sent_files (st : SysState) : SysState × Nat :=
  ({ st with fs := (renameLoop (sentJoinPaths st.db) st.fs 0).1,
             db := { st.db with sent_media := [] } },
   (renameLoop (sentJoinPaths st.db) st.fs 0).2)

/-- `MediaScanner._perform_scan`: enumerate the files passing
`_is_valid_file` (in filesystem order) and reconcile the database. -/
def perform_scan (blacklist : List String) (st : SysState) : SysState × Option String :=
  ({ st with db := (update_database st.db (st.fs.filter (is_valid_file blacklist))).1 },
   (update_database st.db (st.fs.filter (is_valid_file blacklist))).2)

/-- `MediaScanner.scan_files`: `_perform_scan()` then
`cleanup_sent_files()`.  An exception from the scan propagates before the
cleanup runs; otherwise the cleanup's renamed count is returned. -/
def scan_files (blacklist : List String) (st : SysState) : SysState × Option String × Nat :=
  match (perform_scan blacklist st).2 with
  | some e => ((perform_scan blacklist st).1, some e, 0)
  | none =>
    ((cleanup_sent_files (perform_scan blacklist st).1).1, none,
     (cleanup_sent_files (perform_scan blacklist st).1).2)

/-! ### BotCommands.send_media -/

/-- What a finished `send_media` call did (beyond its chat replies). -/
inductive SendOutcome where
  /-- `manual` call failing the admin check: silent early return. -/
  | denied
  /-- no candidate: `logger.warning("没有找到媒体文件")` then return. -/
  | empty
  /-- channel send succeeded and the sent record was written. -/
  | sent (media_id : Nat)
  /-- channel send failed (`_send_to_channel` returned `False`). -/
  | sendFailed
deriving DecidableEq

/-- `BotCommands.send_media(update, context, manual)`.
`updatePresent` is whether `update` is not `None` (the scheduler's
`_wrap_send_media` passes `None`); `channelOk` is whether the external
`_send_to_channel` call succeeds (it catches its own exceptions and
returns a boolean).  The function selects a candidate, then executes
`await update.message.reply_text("✅ 已发送")` — which raises
`AttributeError` when `update` is `None` — and only then branches on the
candidate; a successful channel send records the sent row.  Returns the
new state, the chat replies that were sent, and the outcome or the
uncaught exception. -/
def send_media (st : SysState) (updatePresent : Bool) (is_admin : Bool)
    (manual : Bool) (k : Nat) (channelOk : Bool) :
    SysState × List String × Except String SendOutcome :=
  if manual && !is_admin then
    (st, [], .ok .denied)
  else
    let media := get_random_media st.db k
    if !updatePresent then
      (st, [], .error "AttributeError: NoneType object has no attribute message")
    else
      match media with
      | none => (st, ["✅ 已发送"], .ok .empty)
      | some (mid, _p) =>
        if channelOk then
          ({ st with db := update_sent_records st.db mid },
           ["✅ 已发送"], .ok (.sent mid))
        else
          (st, ["✅ 已发送"], .ok .sendFailed)

/-! ### SchedulerManager: schedule parsing and text-job registration -/

/-- Trigger definitions produced by `_parse_schedule` (apscheduler
`CronTrigger` values, abstracted to their firing rule). -/
inductive Trig where
  | daily (hour minute : Int)
  | weekly (dow : String) (hour minute : Int)
  | cronTab (expr : String)
deriving DecidableEq

/-- Split on a separator character, Python `str.split(sep)` style (empty
pieces kept). -/
def splitOnChar (sep : Char) : List Char → List (List Char)
  | [] => [[]]
  | c :: cs =>
    match splitOnChar sep cs with
    | [] => [[]]
    | h :: t => if c = sep then [] :: h :: t else (c :: h) :: t

/-- Python `str.split()` with no argument: split on whitespace runs,
dropping empty pieces. -/
def splitWS (cs : List Char) : List (List Char) :=
  (splitOnChar ' ' cs).filter (fun w => !w.isEmpty)

/-- Digit-string to number, `none` when empty or non-digit. -/
def digitsToNat (ds : List Char) : Option Nat :=
  match ds with
  | [] => none
  | _ =>
    if ds.all Char.isDigit then
      some (ds.foldl (fun a c => a * 10 + (c.toNat - 48)) 0)
    else none

/-- Python `int(s)`: strip surrounding whitespace, optional sign, digits;
raises `ValueError` (here `none`) otherwise. -/
def pyInt (s : String) : Option Int :=
  let cs := ((s.toList.dropWhile (fun c => c = ' ')).reverse.dropWhile
    (fun c => c = ' ')).reverse
  match cs with
  | '-' :: ds => (digitsToNat ds).map (fun n => -(n : Int))
  | '+' :: ds => (digitsToNat ds).map (fun n => (n : Int))
  | ds => (digitsToNat ds).map (fun n => (n : Int))

/-- `hour, minute = map(int, time_part.split(':'))`.  `map` is lazy, so
unpacking converts the pieces left to right: a failing `int()` raises its
own `ValueError`; a piece count other than two raises an unpack
`ValueError` after the conversions that did run. -/
def parseHM (timePart : String) : Except String (Int × Int) :=
  match (splitOnChar ':' timePart.toList).map (fun w => (⟨w⟩ : String)) with
  | [] => .error "not enough values to unpack (expected 2, got 0)"
  | [a] =>
    match pyInt a with
    | none => .error ("invalid literal for int() with base 10: " ++ a)
    | some _ => .error "not enough values to unpack (expected 2, got 1)"
  | [a, b] =>
    match pyInt a with
    | none => .error ("invalid literal for int() with base 10: " ++ a)
    | some ho =>
      match pyInt b with
      | none => .error ("invalid literal for int() with base 10: " ++ b)
      | some mi => .ok (ho, mi)
  | a :: b :: c :: _ =>
    match pyInt a with
    | none => .error ("invalid literal for int() with base 10: " ++ a)
    | some _ =>
      match pyInt b with
      | none => .error ("invalid literal for int() with base 10: " ++ b)
      | some _ =>
        match pyInt c with
        | none => .error ("invalid literal for int() with base 10: " ++ c)
        | some _ => .error "too many values to unpack (expected 2)"

/-- apscheduler `CronTrigger(hour=h, minute=m, ...)`: rejects out-of-range
fields with a `ValueError`. -/
def cronTrigger (hour minute : Int) : Except String Trig :=
  if 0 ≤ hour ∧ hour ≤ 23 ∧ 0 ≤ minute ∧ minute ≤ 59 then
    .ok (.daily hour minute)
  else .error "ValueError in CronTrigger"

/-- apscheduler weekday names accepted by `day_of_week`. -/
def dayNames : List String := ["mon", "tue", "wed", "thu", "fri", "sat", "sun"]

/-- apscheduler `CronTrigger(day_of_week=d, hour=h, minute=m, ...)`. -/
def cronTriggerWeekly (dow : String) (hour minute : Int) : Except String Trig :=
  if dayNames.contains dow ∧ 0 ≤ hour ∧ hour ≤ 23 ∧ 0 ≤ minute ∧ minute ≤ 59 then
    .ok (.weekly dow hour minute)
  else .error "ValueError in CronTrigger"

/-- The `day_map.get(day, day)` lookup of the `week` branch. -/
def day_map (d : String) : String :=
  if d = "0" then "mon" else if d = "1" then "tue" else if d = "2" then "wed"
  else if d = "3" then "thu" else if d = "4" then "fri" else if d = "5" then "sat"
  else if d = "6" then "sun" else d

/-- `CronTrigger.from_crontab(expr)`, modelled at field-count granularity:
a standard crontab expression has exactly five whitespace-separated
fields; apscheduler raises `ValueError` otherwise. -/
def from_crontab (expr : String) : Except String Trig :=
  if (splitWS expr.toList).length = 5 then .ok (.cronTab expr)
  else .error "Wrong number of fields in crontab expression"

/-- `SchedulerManager._parse_schedule(schedule_str)`.  The `day` branch
wraps its body in `try/except ValueError` and re-raises
`ValueError(f"Invalid day format: {schedule_str}")`; the `week` branch
checks the field count itself but lets conversion and trigger errors
propagate unwrapped; an unknown prefix raises
`ValueError(f"Unsupported schedule format: {schedule_str}")`. -/
def parse_schedule (s : String) : Except String Trig :=
  if startsWithD s "day " then
    match parseHM (strDrop s 4) with
    | .ok (ho, mi) =>
      match cronTrigger ho mi with
      | .ok t => .ok t
      | .error _ => .error ("Invalid day format: " ++ s)
    | .error _ => .error ("Invalid day format: " ++ s)
  else if startsWithD s "week " then
    let parts := (splitWS s.toList).map (fun w => (⟨w⟩ : String))
    if hp : parts.length = 3 then
      let d := parts.get ⟨1, by omega⟩
      let time := parts.get ⟨2, by omega⟩
      match parseHM time with
      | .ok (ho, mi) => cronTriggerWeekly (day_map d) ho mi
      | .error e => .error e
    else .error ("Invalid week format: " ++ s)
  else if startsWithD s "cron " then
    from_crontab (strDrop s 5)
  else
    .error ("Unsupported schedule format: " ++ s)

/-- One entry of `config['text_schedules']`. -/
structure ScheduleConfig where
  name : String
  schedule : String
  content : String
deriving DecidableEq

/-- A job registered on the scheduler by `_add_single_text_job`. -/
structure TextJob where
  name : String
  trigger : Trig
  content : String
deriving DecidableEq

/-- Python `content.replace('\\n', '\n')`: left-to-right, non-overlapping. -/
def replaceEscapedNewlines : List Char → List Char
  | '\\' :: 'n' :: rest => '\n' :: replaceEscapedNewlines rest
  | c :: rest => c :: replaceEscapedNewlines rest
  | [] => []

/-- The job `_add_single_text_job` would register for a config entry, if
its schedule string parses. -/
def tryMkJob (sc : ScheduleConfig) : Option TextJob :=
  match parse_schedule sc.schedule with
  | .ok t => some ⟨"text_schedule_" ++ sc.name, t, ⟨replaceEscapedNewlines sc.content.toList⟩⟩
  | .error _ => none

/-- `SchedulerManager._add_single_text_job`: parse and register, with the
whole body inside `try/except Exception` — a failure is logged together
with `schedule_config['name']` and the schedule is skipped. -/
def add_single_text_job (jobs : List TextJob) (sc : ScheduleConfig) : List TextJob :=
  match tryMkJob sc with
  | some j => jobs ++ [j]
  | none => jobs

/-- `SchedulerManager._add_text_schedules`: register each configured text
schedule in turn. -/
def add_text_schedules (cfgs : List ScheduleConfig) : List TextJob :=
  cfgs.foldl add_single_text_job []

/-- Whether an `Except` value is a success. -/
def exceptIsOk : Except String Trig → Bool
  | .ok _ => true
  | .error _ => false


/-! ## Proofs

General helper lemmas first, then one theorem per claim (witnesses where a
theorem carries hypotheses). -/

/-- `insertedRows` produces one row per insert. -/
theorem insertedRows_length (c : Nat) (mids : List Nat) :
    (insertedRows c mids).length = mids.length := by
  induction mids generalizing c with
  | nil => rfl
  | cons m mids ih => simp [insertedRows, ih]

/-- On a table whose rows are strictly increasing in `sent_at`, the
`keep_1000_records` trigger deletes exactly the rows before the last 1000
ones. -/
theorem keep_window (rows : List SentRow)
    (h : rows.Pairwise (fun a b => a.sent_at < b.sent_at)) :
    keep_1000_records rows = rows.drop (rows.length - 1000) := by
  induction rows with
  | nil => rfl
  | cons a tl ih =>
    obtain ⟨ha, htl⟩ := List.pairwise_cons.mp h
    have hPa : ((a :: tl).countP (fun s => decide (a.sent_at < s.sent_at)))
        = tl.length := by
      rw [List.countP_cons]
      have h1 : (decide (a.sent_at < a.sent_at)) = false := by simp
      have h2 : tl.countP (fun s => decide (a.sent_at < s.sent_at)) = tl.length :=
        List.countP_eq_length.mpr (fun x hx => by simpa using ha x hx)
      simp [h1, h2]
    have hcongr : ∀ r ∈ tl,
        (decide ((a :: tl).countP (fun s => decide (r.sent_at < s.sent_at)) < 1000))
          = (decide (tl.countP (fun s => decide (r.sent_at < s.sent_at)) < 1000)) := by
      intro r hr
      have hra : (decide (r.sent_at < a.sent_at)) = false := by
        simp [Nat.not_lt.mpr (Nat.le_of_lt (ha r hr))]
      rw [List.countP_cons, hra]
      simp
    unfold keep_1000_records
    rw [List.filter_cons]
    rw [List.filter_congr hcongr]
    unfold keep_1000_records at ih
    rw [ih htl, hPa]
    by_cases hlen : tl.length < 1000
    · have hd : decide (tl.length < 1000) = true := by simpa using hlen
      rw [hd]
      have h0 : tl.length - 1000 = 0 := by omega
      have h1 : (a :: tl).length - 1000 = 0 := by rw [List.length_cons]; omega
      rw [h0, h1, List.drop_zero, List.drop_zero]
      simp
    · have hd : decide (tl.length < 1000) = false := by simpa using hlen
      rw [hd]
      have h1 : (a :: tl).length - 1000 = (tl.length - 1000) + 1 := by
        rw [List.length_cons]; omega
      rw [h1, List.drop_succ_cons]
      simp

/-- Dropping after an inner drop of a left append factor collapses to a
single drop. -/
theorem drop_drop_append {α : Type} (A B : List α) (a b : Nat) (ha : a ≤ A.length) :
    ((A.drop a) ++ B).drop b = (A ++ B).drop (a + b) := by
  rw [List.drop_append_eq_append_drop, List.drop_append_eq_append_drop,
    List.drop_drop, List.length_drop]
  have e2 : b - (A.length - a) = a + b - A.length := by omega
  rw [e2]

/-- Folding `record_sent` inserts over a table with strictly increasing
timestamps, all older than the clock, leaves exactly the window of the
most recent 1000 rows. -/
theorem sent_fold (db : DB) (mids : List Nat)
    (hlen : db.sent_media.length ≤ 1000)
    (hts : ∀ r ∈ db.sent_media, r.sent_at < db.clock)
    (hpw : db.sent_media.Pairwise (fun a b => a.sent_at < b.sent_at)) :
    (mids.foldl update_sent_records db).sent_media
      = (db.sent_media ++ insertedRows db.clock mids).drop
          ((db.sent_media.length + mids.length) - 1000) := by
  induction mids generalizing db with
  | nil =>
    simp only [List.foldl_nil, insertedRows, List.append_nil, List.length_nil,
      Nat.add_zero]
    have h0 : db.sent_media.length - 1000 = 0 := by omega
    rw [h0, List.drop_zero]
  | cons m mids ih =>
    have hpwX : (db.sent_media ++ [(⟨m, db.clock⟩ : SentRow)]).Pairwise
        (fun a b => a.sent_at < b.sent_at) := by
      rw [List.pairwise_append]
      refine ⟨hpw, List.pairwise_singleton _ _, ?_⟩
      intro x hx y hy
      simp at hy
      rw [hy]
      exact hts x hx
    have hstep : (update_sent_records db m).sent_media
        = (db.sent_media ++ [(⟨m, db.clock⟩ : SentRow)]).drop
            ((db.sent_media.length + 1) - 1000) := by
      unfold update_sent_records
      rw [keep_window _ hpwX]
      simp
    have hlen1 : (update_sent_records db m).sent_media.length ≤ 1000 := by
      rw [hstep]
      simp only [List.length_drop, List.length_append, List.length_cons,
        List.length_nil]
      omega
    have hts1 : ∀ r ∈ (update_sent_records db m).sent_media,
        r.sent_at < (update_sent_records db m).clock := by
      intro r hr
      rw [hstep] at hr
      have hr2 := List.drop_subset _ _ hr
      show r.sent_at < db.clock + 1
      rcases List.mem_append.mp hr2 with h1 | h1
      · exact Nat.lt_succ_of_lt (hts r h1)
      · simp at h1
        rw [h1]
        exact Nat.lt_succ_self _
    have hpw1 : (update_sent_records db m).sent_media.Pairwise
        (fun a b => a.sent_at < b.sent_at) := by
      rw [hstep]
      exact hpwX.sublist (List.drop_sublist _ _)
    have hfoldcons : ((m :: mids).foldl update_sent_records db)
        = mids.foldl update_sent_records (update_sent_records db m) := rfl
    have hclock : (update_sent_records db m).clock = db.clock + 1 := rfl
    rw [hfoldcons, ih _ hlen1 hts1 hpw1, hclock, hstep]
    have hins : insertedRows db.clock (m :: mids)
        = (⟨m, db.clock⟩ : SentRow) :: insertedRows (db.clock + 1) mids := rfl
    rw [hins]
    have hassoc : db.sent_media
          ++ (⟨m, db.clock⟩ : SentRow) :: insertedRows (db.clock + 1) mids
        = (db.sent_media ++ [(⟨m, db.clock⟩ : SentRow)])
          ++ insertedRows (db.clock + 1) mids := by
      rw [List.append_assoc]
      rfl
    rw [hassoc]
    have hd1 : db.sent_media.length + 1 - 1000
        ≤ (db.sent_media ++ [(⟨m, db.clock⟩ : SentRow)]).length := by
      simp only [List.length_append, List.length_cons, List.length_nil]
      omega
    rw [drop_drop_append _ _ _ _ hd1]
    simp only [List.length_cons]
    have hidx : (db.sent_media.length + 1 - 1000)
        + (((db.sent_media ++ [(⟨m, db.clock⟩ : SentRow)]).drop
            (db.sent_media.length + 1 - 1000)).length + mids.length - 1000)
        = db.sent_media.length + (mids.length + 1) - 1000 := by
      simp only [List.length_drop, List.length_append, List.length_cons,
        List.length_nil]
      omega
    rw [hidx]

/-- C2: after every `record_sent` insert of a sequence, the sent-history
table holds exactly `min(count_so_far, 1000)` rows, and those rows are
exactly the most recent inserts; the eviction is part of
`update_sent_records` itself (it composes the `keep_1000_records` trigger
with the insert), not a separate job.  `record_sent` timestamps come from
`datetime.now()`, modelled by the strictly increasing clock, so the
inserted rows are `insertedRows db0.clock pre`. -/
theorem c2_rolling_window (db0 : DB) (mids : List Nat)
    (hempty : db0.sent_media = []) (pre : List Nat)
    (hpre : ∃ rest, pre ++ rest = mids) :
    ((pre.foldl update_sent_records db0).sent_media).length = min pre.length 1000 ∧
    (pre.foldl update_sent_records db0).sent_media
      = (insertedRows db0.clock pre).drop (pre.length - 1000) := by
  obtain ⟨rest, -⟩ := hpre
  have h2 := sent_fold db0 pre (by rw [hempty]; simp)
    (by rw [hempty]; intro r hr; simp at hr)
    (by rw [hempty]; exact List.Pairwise.nil)
  rw [hempty] at h2
  simp only [List.nil_append, List.length_nil, Nat.zero_add] at h2
  refine ⟨?_, h2⟩
  rw [h2, List.length_drop, insertedRows_length]
  omega

/-- Witness for C2 at a concrete three-insert sequence observed after its
second insert. -/
theorem c2_rolling_window_witness :
    ((([7, 8] : List Nat).foldl update_sent_records
        (⟨[], [], 1, 5⟩ : DB)).sent_media).length = min ([7, 8] : List Nat).length 1000 ∧
    (([7, 8] : List Nat).foldl update_sent_records (⟨[], [], 1, 5⟩ : DB)).sent_media
      = (insertedRows (⟨[], [], 1, 5⟩ : DB).clock [7, 8]).drop (([7, 8] : List Nat).length - 1000) :=
  c2_rolling_window ⟨[], [], 1, 5⟩ [7, 8, 9] rfl [7, 8] ⟨[9], rfl⟩



/-- C1 (code bug): `send_media` does not complete with one of the three
outcomes on every invocation.  Unattended invocations
(`_wrap_send_media` passes `update=None`, `manual=False`) raise
`AttributeError` at `update.message.reply_text` before any transmission,
even when a sendable candidate and a working channel exist; and an
attended invocation with no candidate replies "✅ 已发送" (reporting a
send) before logging the empty outcome. -/
theorem c1_send_one_outcomes_bug :
    send_media ⟨⟨[⟨1, "a.jpg", 0, false⟩], [], 2, 1⟩, ["a.jpg"]⟩ false true false 0 true
      = (⟨⟨[⟨1, "a.jpg", 0, false⟩], [], 2, 1⟩, ["a.jpg"]⟩, [],
         .error "AttributeError: NoneType object has no attribute message") ∧
    send_media ⟨⟨[], [], 1, 0⟩, []⟩ true true true 0 true
      = (⟨⟨[], [], 1, 0⟩, []⟩, ["✅ 已发送"], .ok .empty) :=
  ⟨rfl, rfl⟩

/-- C4 (code bug): when a previously soft-deleted path reappears in the
filesystem listing, the reconciliation insert violates the `path TEXT
UNIQUE` constraint — `db_files` only collects non-deleted rows, so the
path is re-inserted — and the unit raises instead of completing. -/
theorem c4_soft_deleted_reappearance_raises :
    update_database ⟨[⟨1, "a.jpg", 0, true⟩], [], 2, 5⟩ ["a.jpg"]
      = (⟨[⟨1, "a.jpg", 0, true⟩], [], 2, 5⟩,
         some "IntegrityError: UNIQUE constraint failed: media.path") :=
  rfl

/-- C5 (code bug): `get_db` commits in `finally:`, so a unit of work that
fails partway keeps its earlier writes.  Scanning `["a.jpg", "b.jpg"]`
against a catalog whose only row is a soft-deleted `"b.jpg"` inserts
`"a.jpg"`, then raises on `"b.jpg"` — and the committed catalog still
contains the `"a.jpg"` row of the failed unit. -/
theorem c5_partial_write_persists :
    (update_database ⟨[⟨1, "b.jpg", 0, true⟩], [], 2, 5⟩ ["a.jpg", "b.jpg"]).2
      = some "IntegrityError: UNIQUE constraint failed: media.path" ∧
    ((update_database ⟨[⟨1, "b.jpg", 0, true⟩], [], 2, 5⟩ ["a.jpg", "b.jpg"]).1.media.map
        (fun m => m.path)) = ["b.jpg", "a.jpg"] :=
  ⟨rfl, rfl⟩

/-- C6: when the channel send fails (`_send_to_channel` returns `False`),
`send_media` leaves the whole state — catalog and sent history —
untouched, never reports a successful send, and the selector's view of
the sendable set is unchanged, so the same item can be picked again; the
code performs no retry (a single `_send_to_channel` call per
invocation). -/
theorem c6_send_failure_leaves_catalog (st : SysState) (up adm man : Bool) (k : Nat) :
    (send_media st up adm man k false).1 = st ∧
    (∀ mid, (send_media st up adm man k false).2.2 ≠ .ok (.sent mid)) ∧
    get_random_media (send_media st up adm man k false).1.db k
      = get_random_media st.db k := by
  cases hm : get_random_media st.db k with
  | none => cases man <;> cases adm <;> cases up <;> simp [send_media, hm]
  | some r =>
    obtain ⟨mid, p⟩ := r
    cases man <;> cases adm <;> cases up <;> simp [send_media, hm]

/-- C9: running `cleanup_sent_files` right after a `cleanup_sent_files`
renames zero files the second time and leaves the (already empty) sent
history empty, without error: the second call returns the first call's
state unchanged, with renamed count `0`. -/
theorem c9_cleanup_idempotent (st : SysState) :
    cleanup_sent_files ((cleanup_sent_files st).1) = ((cleanup_sent_files st).1, 0) := by
  rcases st with ⟨⟨med, sent, nid, clk⟩, fs⟩
  simp [cleanup_sent_files, sentJoinPaths, renameLoop]

/-- C3: the selector returns `none` exactly when no sendable item exists;
a returned row always is a non-deleted catalog row without any sent
record; and (for the primary-key property that catalog ids are pairwise
distinct) the draws `0 … n-1` hit each sendable item exactly once —
`ORDER BY RANDOM() LIMIT 1` with a uniform draw is uniform over the
sendable items. -/
theorem c3_selector (db : DB) (k : Nat)
    (hid : db.media.Pairwise (fun a b => a.id ≠ b.id)) :
    (get_random_media db k = none ↔ sendableRows db = []) ∧
    (∀ mid p, get_random_media db k = some (mid, p) →
      ∃ m, m ∈ db.media ∧ m.id = mid ∧ m.path = p ∧ m.is_deleted = false ∧
        ∀ s ∈ db.sent_media, s.media_id ≠ m.id) ∧
    (∀ m ∈ sendableRows db, ∃ j, j < (sendableRows db).length ∧
      get_random_media db j = some (m.id, m.path)) ∧
    (∀ j1 j2, j1 < (sendableRows db).length → j2 < (sendableRows db).length →
      get_random_media db j1 = get_random_media db j2 → j1 = j2) := by
  have hpwc : (sendableRows db).Pairwise (fun a b => a.id ≠ b.id) :=
    hid.sublist (List.filter_sublist _)
  refine ⟨?_, ?_, ?_, ?_⟩
  · unfold get_random_media
    split
    · next hc =>
      simp [List.length_eq_zero.mp hc]
    · next hc =>
      constructor
      · intro h
        exact absurd h (by simp)
      · intro h
        rw [h] at hc
        simp at hc
  · intro mid p h
    unfold get_random_media at h
    split at h
    · exact absurd h (by simp)
    · next hc =>
      simp only [Option.some.injEq, Prod.mk.injEq] at h
      set mrow := (sendableRows db).get
        ⟨k % (sendableRows db).length, Nat.mod_lt k (Nat.pos_of_ne_zero hc)⟩ with hmrow
      have hmem : mrow ∈ sendableRows db := List.get_mem _ _ _
      have hfilt := List.mem_filter.mp hmem
      refine ⟨mrow, hfilt.1, h.1, h.2, ?_, ?_⟩
      · have hb := hfilt.2
        rw [Bool.and_eq_true] at hb
        have := hb.1
        simp at this
        exact this
      · intro srow hs
        have hb := hfilt.2
        rw [Bool.and_eq_true] at hb
        have hall := List.all_eq_true.mp hb.2 srow hs
        simpa using hall
  · intro m hm
    obtain ⟨i, hi⟩ := List.mem_iff_get.mp hm
    refine ⟨i.val, i.isLt, ?_⟩
    unfold get_random_media
    have hc : ¬ (sendableRows db).length = 0 := by
      have := i.isLt
      omega
    rw [dif_neg hc]
    have hfin : (⟨i.val % (sendableRows db).length,
        Nat.mod_lt i.val (Nat.pos_of_ne_zero hc)⟩ : Fin (sendableRows db).length) = i :=
      Fin.ext (Nat.mod_eq_of_lt i.isLt)
    rw [hfin, hi]
  · intro j1 j2 h1 h2 heq
    have hc : ¬ (sendableRows db).length = 0 := by omega
    unfold get_random_media at heq
    rw [dif_neg hc, dif_neg hc] at heq
    simp only [Option.some.injEq, Prod.mk.injEq] at heq
    have hj1 : j1 % (sendableRows db).length = j1 := Nat.mod_eq_of_lt h1
    have hj2 : j2 % (sendableRows db).length = j2 := Nat.mod_eq_of_lt h2
    by_contra hne
    have hget := List.pairwise_iff_get.mp hpwc
    rcases Nat.lt_or_ge j1 j2 with hlt | hge
    · exact hget ⟨j1 % _, _⟩ ⟨j2 % _, _⟩ (by simp only [Fin.mk_lt_mk, hj1, hj2]; exact hlt)
        heq.1
    · have hlt2 : j2 < j1 := by omega
      exact hget ⟨j2 % _, _⟩ ⟨j1 % _, _⟩ (by simp only [Fin.mk_lt_mk, hj1, hj2]; exact hlt2)
        heq.1.symm

/-- Witness for C3 on a two-item catalog in which item 2 has a sent
record: the selector's emptiness signal characterisation, instantiated. -/
theorem c3_selector_witness :
    get_random_media (⟨[⟨1, "a.jpg", 0, false⟩, ⟨2, "b.png", 0, false⟩],
        [⟨2, 0⟩], 3, 1⟩ : DB) 0 = none
      ↔ sendableRows (⟨[⟨1, "a.jpg", 0, false⟩, ⟨2, "b.png", 0, false⟩],
        [⟨2, 0⟩], 3, 1⟩ : DB) = [] :=
  (c3_selector _ 0 (by decide)).1



/-- Registration with an accumulator: the text-schedule loop appends
exactly the jobs of the parseable configs. -/
theorem add_text_jobs_acc (cfgs : List ScheduleConfig) (acc : List TextJob) :
    cfgs.foldl add_single_text_job acc = acc ++ cfgs.filterMap tryMkJob := by
  induction cfgs generalizing acc with
  | nil => simp
  | cons c cfgs ih =>
    rw [List.foldl_cons, ih]
    unfold add_single_text_job
    cases htc : tryMkJob c <;> simp [htc, List.filterMap_cons]

/-- C8 counterexample: a `week`-format schedule with a bad time raises the
bare `int()` conversion error, which carries neither the raw schedule
string nor the schedule's configured name (the name appears only in the
engine's log line at the catch site); the schedule is still skipped. -/
theorem c8_error_payload_counterexample :
    add_text_schedules [⟨"evening", "week 0 9:xx", "hi"⟩] = [] ∧
    parse_schedule "week 0 9:xx"
      = .error "invalid literal for int() with base 10: xx" ∧
    strContains "invalid literal for int() with base 10: xx" "week 0 9:xx" = false ∧
    strContains "invalid literal for int() with base 10: xx" "evening" = false :=
  ⟨rfl, rfl, rfl, rfl⟩

/-- C8 (amended): the engine registers exactly the parseable schedules —
a failing schedule is skipped in isolation, leaving every other schedule
registered — and the errors raised for a bad `day`-format time, a wrong
`week` field count, and an unknown prefix each carry the raw schedule
string (as `ValueError`s; there is no dedicated error class and the
schedule's name is attached only by the engine's log at the catch site;
a `week`-format time error escapes unwrapped, per the counterexample). -/
theorem c8_schedule_errors_amended :
    (∀ cfgs : List ScheduleConfig,
      add_text_schedules cfgs = cfgs.filterMap tryMkJob) ∧
    (∀ (pre post : List ScheduleConfig) (c : ScheduleConfig),
      tryMkJob c = none →
      add_text_schedules (pre ++ c :: post) = add_text_schedules (pre ++ post)) ∧
    (∀ (s : String) (e : String), startsWithD s "day " = true →
      parse_schedule s = .error e → e = "Invalid day format: " ++ s) ∧
    (∀ s : String, startsWithD s "day " = false → startsWithD s "week " = true →
      ((splitWS s.toList).map (fun w => (⟨w⟩ : String))).length ≠ 3 →
      parse_schedule s = .error ("Invalid week format: " ++ s)) ∧
    (∀ s : String, startsWithD s "day " = false → startsWithD s "week " = false →
      startsWithD s "cron " = false →
      parse_schedule s = .error ("Unsupported schedule format: " ++ s)) := by
  refine ⟨?_, ?_, ?_, ?_, ?_⟩
  · intro cfgs
    unfold add_text_schedules
    rw [add_text_jobs_acc]
    simp
  · intro pre post c hc
    unfold add_text_schedules
    rw [add_text_jobs_acc, add_text_jobs_acc]
    simp [List.filterMap_append, List.filterMap_cons, hc]
  · intro s e hd hp
    unfold parse_schedule at hp
    rw [if_pos hd] at hp
    cases hph : parseHM (strDrop s 4) with
    | error e2 =>
      rw [hph] at hp
      simpa using hp.symm
    | ok pr =>
      obtain ⟨ho, mi⟩ := pr
      rw [hph] at hp
      dsimp only [] at hp
      cases hct : cronTrigger ho mi with
      | error e3 =>
        rw [hct] at hp
        simpa using hp.symm
      | ok t =>
        rw [hct] at hp
        exact absurd hp (by simp)
  · intro s hd hw hlen
    unfold parse_schedule
    rw [if_neg (by simp [hd]), if_pos hw]
    rw [dif_neg hlen]
  · intro s hd hw hc
    unfold parse_schedule
    rw [if_neg (by simp [hd]), if_neg (by simp [hw]), if_neg (by simp [hc])]

/-- Witness for C8's amended statement: each clause applied at a concrete
schedule list or schedule string. -/
theorem c8_schedule_errors_amended_witness :
    add_text_schedules [⟨"x", "bogus", "hi"⟩, ⟨"y", "day 09:30", "hello"⟩]
      = ([⟨"x", "bogus", "hi"⟩, ⟨"y", "day 09:30", "hello"⟩] :
          List ScheduleConfig).filterMap tryMkJob ∧
    add_text_schedules ([⟨"a", "day 09:30", "x"⟩] ++ (⟨"b", "bogus", "y"⟩ : ScheduleConfig) :: [])
      = add_text_schedules ([⟨"a", "day 09:30", "x"⟩] ++ []) ∧
    ("Invalid day format: day 9" : String) = "Invalid day format: " ++ "day 9" ∧
    parse_schedule "week 1" = .error ("Invalid week format: " ++ "week 1") ∧
    parse_schedule "bogus" = .error ("Unsupported schedule format: " ++ "bogus") :=
  ⟨c8_schedule_errors_amended.1 _,
   c8_schedule_errors_amended.2.1 _ _ _ rfl,
   c8_schedule_errors_amended.2.2.1 "day 9" "Invalid day format: day 9" rfl rfl,
   c8_schedule_errors_amended.2.2.2.1 "week 1" rfl rfl (by decide),
   c8_schedule_errors_amended.2.2.2.2 "bogus" rfl rfl rfl⟩



/-- A filesystem entry that is not one of the paths processed by the
rename loop survives the loop. -/
theorem renameLoop_keep (paths : List String) (fs : List String) (cnt : Nat) (x : String)
    (hx : x ∈ fs) (hq : ∀ q ∈ paths, q ≠ x) :
    x ∈ (renameLoop paths fs cnt).1 := by
  induction paths generalizing fs cnt with
  | nil => simpa [renameLoop]
  | cons q rest ih =>
    unfold renameLoop
    by_cases hqf : fs.contains q
    · rw [if_pos hqf]
      apply ih
      · apply List.mem_insert_iff.mpr
        right
        exact (List.mem_erase_of_ne (Ne.symm (hq q (List.mem_cons_self _ _)))).mpr hx
      · intro q2 h2
        exact hq q2 (List.mem_cons_of_mem _ h2)
    · rw [if_neg hqf]
      exact ih fs cnt hx (fun q2 h2 => hq q2 (List.mem_cons_of_mem _ h2))

/-- A name that is absent from the filesystem and is not the rename target
of any processed path stays absent. -/
theorem renameLoop_out (paths : List String) (fs : List String) (cnt : Nat) (x : String)
    (hx : x ∉ fs) (hq : ∀ q ∈ paths, renamedName q ≠ x) :
    x ∉ (renameLoop paths fs cnt).1 := by
  induction paths generalizing fs cnt with
  | nil => simpa [renameLoop]
  | cons q rest ih =>
    unfold renameLoop
    by_cases hqf : fs.contains q
    · rw [if_pos hqf]
      apply ih
      · intro hmem
        rcases List.mem_insert_iff.mp hmem with h | h
        · exact hq q (List.mem_cons_self _ _) h.symm
        · exact hx ((List.erase_sublist _ _).subset h)
      · intro q2 h2
        exact hq q2 (List.mem_cons_of_mem _ h2)
    · rw [if_neg hqf]
      exact ih fs cnt hx (fun q2 h2 => hq q2 (List.mem_cons_of_mem _ h2))

/-- The rename loop preserves filesystem duplicate-freeness. -/
theorem renameLoop_nodup (paths : List String) (fs : List String) (cnt : Nat)
    (h : fs.Nodup) : ((renameLoop paths fs cnt).1).Nodup := by
  induction paths generalizing fs cnt with
  | nil => simpa [renameLoop]
  | cons q rest ih =>
    unfold renameLoop
    by_cases hqf : fs.contains q
    · rw [if_pos hqf]
      exact ih _ _ ((h.erase q).insert)
    · rw [if_neg hqf]
      exact ih _ _ h

/-- Core cleanup property: over a duplicate-free filesystem, when no
processed path is the rename target of another processed path, every
processed path present on disk ends up renamed — the `_Sent` name is in
the final filesystem and the original name is gone. -/
theorem renameLoop_spec (paths : List String) (fs : List String) (cnt : Nat)
    (hnodup : fs.Nodup)
    (hpaths : ∀ q ∈ paths, renamedName q ∉ paths) :
    ∀ p ∈ paths, p ∈ fs →
      renamedName p ∈ (renameLoop paths fs cnt).1 ∧ p ∉ (renameLoop paths fs cnt).1 := by
  induction paths generalizing fs cnt with
  | nil =>
    intro p hp
    exact absurd hp (List.not_mem_nil p)
  | cons q rest ih =>
    intro p hp hpf
    have hrest : ∀ q2 ∈ rest, renamedName q2 ∉ rest := by
      intro q2 h2 hmem
      exact hpaths q2 (List.mem_cons_of_mem _ h2) (List.mem_cons_of_mem _ hmem)
    unfold renameLoop
    by_cases hqf : fs.contains q
    · rw [if_pos hqf]
      by_cases hpq : p = q
      · subst hpq
        constructor
        · apply renameLoop_keep
          · exact List.mem_insert_self _ _
          · intro q2 h2 heq
            have hmem : renamedName p ∈ p :: rest := by
              rw [← heq]
              exact List.mem_cons_of_mem _ h2
            exact hpaths p (List.mem_cons_self _ _) hmem
        · apply renameLoop_out
          · intro hmem
            rcases List.mem_insert_iff.mp hmem with h | h
            · have hmem2 : renamedName p ∈ p :: rest := by
                rw [← h]
                exact List.mem_cons_self _ _
              exact hpaths p (List.mem_cons_self _ _) hmem2
            · exact (hnodup.mem_erase_iff.mp h).1 rfl
          · intro q2 h2 heq
            have hmem2 : renamedName q2 ∈ p :: rest := by
              rw [heq]
              exact List.mem_cons_self _ _
            exact hpaths q2 (List.mem_cons_of_mem _ h2) hmem2
      · have hpr : p ∈ rest := by
          rcases List.mem_cons.mp hp with h | h
          · exact absurd h hpq
          · exact h
        apply ih _ _ ((hnodup.erase q).insert) hrest p hpr
        apply List.mem_insert_iff.mpr
        right
        exact (List.mem_erase_of_ne hpq).mpr hpf
    · rw [if_neg hqf]
      by_cases hpq : p = q
      · subst hpq
        have hc2 : fs.contains p = true := by
          simp [List.contains, List.elem_eq_mem, hpf]
        exact absurd hc2 hqf
      · have hpr : p ∈ rest := by
          rcases List.mem_cons.mp hp with h | h
          · exact absurd h hpq
          · exact h
        exact ih _ _ hnodup hrest p hpr hpf

/-- C7: a rescan (`scan_files`) is reconciliation followed immediately by
cleanup — by construction the only caller-visible rescan operation runs
both — so every completed rescan leaves the sent-history table empty, and
every previously sent path (the `media ⨝ sent_media` join the cleanup
reads after the reconcile step) that still exists on disk has been
renamed: the `_Sent` name is present and the original is gone (assuming
no sent path is itself the rename target of another, which would make a
later rename overwrite an earlier one). -/
theorem c7_rescan_flushes (blacklist : List String) (st st2 : SysState) (cnt : Nat)
    (hnodup : st.fs.Nodup)
    (hscan : scan_files blacklist st = (st2, none, cnt)) :
    st2.db.sent_media = [] ∧
    ∀ p ∈ sentJoinPaths (perform_scan blacklist st).1.db,
      (∀ q ∈ sentJoinPaths (perform_scan blacklist st).1.db,
        renamedName q ∉ sentJoinPaths (perform_scan blacklist st).1.db) →
      p ∈ st.fs → renamedName p ∈ st2.fs ∧ p ∉ st2.fs := by
  unfold scan_files at hscan
  cases he : (perform_scan blacklist st).2 with
  | some e =>
    rw [he] at hscan
    dsimp only [] at hscan
    exact absurd (congrArg (fun x => x.2.1) hscan) (by simp)
  | none =>
    rw [he] at hscan
    dsimp only [] at hscan
    have h1 : (cleanup_sent_files (perform_scan blacklist st).1).1 = st2 :=
      congrArg Prod.fst hscan
    constructor
    · rw [← h1]
      rfl
    · intro p hp hjoin hpf
      rw [← h1]
      exact renameLoop_spec _ st.fs 0 hnodup hjoin p hp hpf

/-- Witness for C7 on a one-item catalog whose item was sent: after the
rescan the file is renamed and the original name is gone. -/
theorem c7_rescan_flushes_witness :
    renamedName "a.jpg"
        ∈ (⟨⟨[⟨1, "a.jpg", 0, false⟩], [], 2, 1⟩, ["a_Sent.jpg"]⟩ : SysState).fs ∧
    "a.jpg" ∉ (⟨⟨[⟨1, "a.jpg", 0, false⟩], [], 2, 1⟩, ["a_Sent.jpg"]⟩ : SysState).fs :=
  (c7_rescan_flushes [] ⟨⟨[⟨1, "a.jpg", 0, false⟩], [⟨1, 0⟩], 2, 1⟩, ["a.jpg"]⟩
      ⟨⟨[⟨1, "a.jpg", 0, false⟩], [], 2, 1⟩, ["a_Sent.jpg"]⟩ 1
      (by decide) rfl).2 "a.jpg" (by decide) (by decide) (by decide)



/-- A dot-free char list has no last-dot split. -/
theorem splitLastDot_eq_none (cs : List Char) (h : ∀ c ∈ cs, c ≠ '.') :
    splitLastDot cs = none := by
  induction cs with
  | nil => rfl
  | cons c cs ih =>
    unfold splitLastDot
    rw [ih (fun x hx => h x (List.mem_cons_of_mem _ hx))]
    rw [if_neg (h c (List.mem_cons_self _ _))]

/-- Conversely, a char list without a last-dot split is dot-free. -/
theorem splitLastDot_none_nodot (cs : List Char) (h : splitLastDot cs = none) :
    ∀ c ∈ cs, c ≠ '.' := by
  induction cs with
  | nil =>
    intro c hc
    exact absurd hc (List.not_mem_nil c)
  | cons c cs ih =>
    unfold splitLastDot at h
    cases hsd : splitLastDot cs with
    | some pr =>
      rw [hsd] at h
      exact absurd h (by simp)
    | none =>
      rw [hsd] at h
      dsimp only [] at h
      intro x hx
      rcases List.mem_cons.mp hx with hxc | hxs
      · subst hxc
        intro hdot
        rw [if_pos hdot] at h
        exact absurd h (by simp)
      · exact ih hsd x hxs

/-- The last-dot split decomposes the list. -/
theorem splitLastDot_concat (cs : List Char) (bf af : List Char)
    (h : splitLastDot cs = some (bf, af)) : cs = bf ++ '.' :: af := by
  induction cs generalizing bf af with
  | nil => exact absurd h (by simp [splitLastDot])
  | cons c cs ih =>
    unfold splitLastDot at h
    cases hsd : splitLastDot cs with
    | some pr =>
      obtain ⟨bf2, af2⟩ := pr
      rw [hsd] at h
      dsimp only [] at h
      simp only [Option.some.injEq, Prod.mk.injEq] at h
      rw [← h.1, ← h.2]
      rw [ih bf2 af2 hsd]
      rfl
    | none =>
      rw [hsd] at h
      dsimp only [] at h
      by_cases hc : c = '.'
      · rw [if_pos hc] at h
        simp only [Option.some.injEq, Prod.mk.injEq] at h
        rw [← h.1, ← h.2, hc]
        rfl
      · rw [if_neg hc] at h
        exact absurd h (by simp)

/-- Everything after the last dot is dot-free. -/
theorem splitLastDot_after_nodot (cs : List Char) (bf af : List Char)
    (h : splitLastDot cs = some (bf, af)) : ∀ c ∈ af, c ≠ '.' := by
  induction cs generalizing bf af with
  | nil => exact absurd h (by simp [splitLastDot])
  | cons c cs ih =>
    unfold splitLastDot at h
    cases hsd : splitLastDot cs with
    | some pr =>
      obtain ⟨bf2, af2⟩ := pr
      rw [hsd] at h
      dsimp only [] at h
      simp only [Option.some.injEq, Prod.mk.injEq] at h
      rw [← h.2]
      exact ih bf2 af2 hsd
    | none =>
      rw [hsd] at h
      dsimp only [] at h
      by_cases hc : c = '.'
      · rw [if_pos hc] at h
        simp only [Option.some.injEq, Prod.mk.injEq] at h
        rw [← h.2]
        exact splitLastDot_none_nodot cs hsd
      · rw [if_neg hc] at h
        exact absurd h (by simp)

/-- Prepending characters before a dotted tail keeps the tail's last dot
as the split point. -/
theorem splitLastDot_append_right (ys : List Char) (xs : List Char) (bf af : List Char)
    (h : splitLastDot ys = some (bf, af)) :
    splitLastDot (xs ++ ys) = some (xs ++ bf, af) := by
  induction xs with
  | nil => simpa using h
  | cons c xs ih =>
    show splitLastDot (c :: (xs ++ ys)) = _
    unfold splitLastDot
    rw [ih]
    rfl

/-- `takeWhile` passes over a prefix it accepts entirely. -/
theorem takeWhile_append_all {α : Type} (P : α → Bool) (xs ys : List α)
    (h : ∀ x ∈ xs, P x = true) :
    (xs ++ ys).takeWhile P = xs ++ ys.takeWhile P := by
  induction xs with
  | nil => rfl
  | cons c xs ih =>
    show (c :: (xs ++ ys)).takeWhile P = _
    rw [List.takeWhile_cons, h c (List.mem_cons_self _ _)]
    rw [ih (fun x hx => h x (List.mem_cons_of_mem _ hx))]
    rfl

/-- `takeWhile` finds nothing at the start of a `dropWhile` remainder. -/
theorem takeWhile_dropWhile_eq_nil {α : Type} (P : α → Bool) (l : List α) :
    ((l.dropWhile P).takeWhile P) = [] := by
  induction l with
  | nil => rfl
  | cons c l ih =>
    rw [List.dropWhile_cons]
    by_cases hc : P c = true
    · rw [if_pos hc]
      exact ih
    · rw [if_neg hc]
      rw [List.takeWhile_cons]
      simp only [Bool.not_eq_true] at hc
      rw [hc]
      simp

/-- The final component of a path contains no separator. -/
theorem pathName_no_slash (p : String) : ∀ c ∈ (pathName p).toList, c ≠ '/' := by
  intro c hc
  have hc2 : c ∈ (p.toList.reverse.takeWhile (fun c => c ≠ '/')).reverse := hc
  rw [List.mem_reverse] at hc2
  have := List.mem_takeWhile_imp hc2
  simpa using this

/-- Replacing the final component of a path by a separator-free name and
reading the final component back returns that name. -/
theorem pathName_withName (p n : String) (hn : ∀ c ∈ n.toList, c ≠ '/') :
    pathName (withName p n) = n := by
  unfold pathName withName
  have h1 : ((⟨((p.toList.reverse.dropWhile (fun c => c ≠ '/')).reverse) ++ n.toList⟩ :
      String).toList) = ((p.toList.reverse.dropWhile (fun c => c ≠ '/')).reverse) ++ n.toList :=
    rfl
  rw [h1]
  rw [List.reverse_append, List.reverse_reverse]
  rw [takeWhile_append_all _ _ _ (by
    intro x hx
    rw [List.mem_reverse] at hx
    simpa using hn x hx)]
  rw [takeWhile_dropWhile_eq_nil]
  rw [List.append_nil, List.reverse_reverse]
  rfl

/-- Unfolding of a successful stem/suffix split. -/
theorem pyStemSuffix_valid (name : String) (h : pySuffix name ≠ "") :
    ∃ bf af, splitLastDot name.toList = some (bf, af) ∧ bf ≠ [] ∧ af ≠ [] ∧
      pyStem name = ⟨bf⟩ ∧ pySuffix name = ⟨'.' :: af⟩ := by
  unfold pySuffix pyStemSuffix at h
  cases hsd : splitLastDot name.toList with
  | none =>
    rw [hsd] at h
    exact absurd rfl h
  | some pr =>
    obtain ⟨bf, af⟩ := pr
    rw [hsd] at h
    dsimp only [] at h
    by_cases hc : bf ≠ [] ∧ af ≠ []
    · rw [if_pos hc] at h
      refine ⟨bf, af, rfl, hc.1, hc.2, ?_, ?_⟩
      · unfold pyStem pyStemSuffix
        rw [hsd]
        dsimp only []
        rw [if_pos hc]
      · unfold pySuffix pyStemSuffix
        rw [hsd]
        dsimp only []
        rw [if_pos hc]
    · rw [if_neg hc] at h
      exact absurd rfl h

/-- Splitting the renamed component: the stem gains the `_Sent` marker and
the suffix is unchanged. -/
theorem pyStemSuffix_renamed (bf af : List Char) (haf : ∀ c ∈ af, c ≠ '.')
    (hafne : af ≠ []) :
    pyStemSuffix ((⟨bf⟩ : String) ++ sent_suffix ++ (⟨'.' :: af⟩ : String))
      = ((⟨bf⟩ : String) ++ sent_suffix, (⟨'.' :: af⟩ : String)) := by
  have hchars : (((⟨bf⟩ : String) ++ sent_suffix ++ (⟨'.' :: af⟩ : String)).toList)
      = (bf ++ sent_suffix.toList) ++ ('.' :: af) := by
    show (((⟨bf⟩ : String) ++ sent_suffix ++ (⟨'.' :: af⟩ : String)).data) = _
    rw [String.data_append, String.data_append]
    rfl
  have h1 : splitLastDot ('.' :: af) = some ([], af) := by
    unfold splitLastDot
    rw [splitLastDot_eq_none af haf]
    rw [if_pos rfl]
  have h2 := splitLastDot_append_right ('.' :: af) (bf ++ sent_suffix.toList) [] af h1
  rw [List.append_nil] at h2
  unfold pyStemSuffix
  rw [hchars, h2]
  dsimp only []
  rw [if_pos ⟨by simp [sent_suffix], hafne⟩]
  rfl



/-- A successful single insert appends one fresh non-deleted row and
touches nothing else. -/
theorem insert_media_ok (db : DB) (p : String) (db1 : DB)
    (h : insert_media db p = .ok db1) :
    db1.media = db.media ++ [⟨db.next_id, p, db.clock, false⟩] ∧
    db1.sent_media = db.sent_media := by
  unfold insert_media at h
  by_cases hc : db.media.any (fun m => m.path = p) = true
  · rw [if_pos hc] at h
    exact absurd h (by simp)
  · rw [if_neg hc] at h
    simp only [Except.ok.injEq] at h
    rw [← h]
    exact ⟨rfl, rfl⟩

/-- The insert loop never removes catalog rows. -/
theorem insert_new_files_mono (db : DB) (ps : List String) (db2 : DB) (err : Option String)
    (h : insert_new_files db ps = (db2, err)) :
    ∀ m ∈ db.media, m ∈ db2.media := by
  induction ps generalizing db with
  | nil =>
    unfold insert_new_files at h
    have h2 : db = db2 := congrArg Prod.fst h
    rw [← h2]
    exact fun m hm => hm
  | cons q rest ih =>
    unfold insert_new_files at h
    cases hi : insert_media db q with
    | ok db1 =>
      rw [hi] at h
      dsimp only [] at h
      intro m hm
      apply ih db1 h
      rw [(insert_media_ok db q db1 hi).1]
      exact List.mem_append_left _ hm
    | error e =>
      rw [hi] at h
      dsimp only [] at h
      have h2 : db = db2 := congrArg Prod.fst h
      rw [← h2]
      exact fun m hm => hm

/-- The insert loop never touches the sent-history table. -/
theorem insert_new_files_sent (db : DB) (ps : List String) (db2 : DB) (err : Option String)
    (h : insert_new_files db ps = (db2, err)) :
    db2.sent_media = db.sent_media := by
  induction ps generalizing db with
  | nil =>
    unfold insert_new_files at h
    have h2 : db = db2 := congrArg Prod.fst h
    rw [← h2]
  | cons q rest ih =>
    unfold insert_new_files at h
    cases hi : insert_media db q with
    | ok db1 =>
      rw [hi] at h
      dsimp only [] at h
      rw [ih db1 h, (insert_media_ok db q db1 hi).2]
    | error e =>
      rw [hi] at h
      dsimp only [] at h
      have h2 : db = db2 := congrArg Prod.fst h
      rw [← h2]

/-- A fully successful insert loop leaves a fresh non-deleted row for
each of its paths. -/
theorem insert_new_files_mem (db : DB) (ps : List String) (db2 : DB)
    (h : insert_new_files db ps = (db2, none)) :
    ∀ p ∈ ps, ∃ m, m ∈ db2.media ∧ m.path = p ∧ m.is_deleted = false := by
  induction ps generalizing db with
  | nil =>
    intro p hp
    exact absurd hp (List.not_mem_nil p)
  | cons q rest ih =>
    unfold insert_new_files at h
    cases hi : insert_media db q with
    | error e =>
      rw [hi] at h
      dsimp only [] at h
      exact absurd (congrArg Prod.snd h) (by simp)
    | ok db1 =>
      rw [hi] at h
      dsimp only [] at h
      intro p hp
      rcases List.mem_cons.mp hp with hpq | hpr
      · subst hpq
        refine ⟨⟨db.next_id, p, db.clock, false⟩, ?_, rfl, rfl⟩
        apply insert_new_files_mono db1 rest db2 none h
        rw [(insert_media_ok db p db1 hi).1]
        exact List.mem_append_right _ (by simp)
      · exact ih db1 h p hpr

/-- A successful reconciliation inserts each listed path that no existing
row (deleted or not) holds, as a fresh non-deleted row, and leaves the
sent-history table untouched. -/
theorem update_database_added (db : DB) (current : List String) (db2 : DB)
    (h : update_database db current = (db2, none))
    (p : String) (hp : p ∈ current) (hfresh : ∀ m ∈ db.media, m.path ≠ p) :
    (∃ m, m ∈ db2.media ∧ m.path = p ∧ m.is_deleted = false) ∧
    db2.sent_media = db.sent_media := by
  unfold update_database at h
  cases herr : (insert_new_files db (current.filter
      (fun p2 => !(db_files db).contains p2))).2 with
  | some e =>
    rw [herr] at h
    dsimp only [] at h
    exact absurd (congrArg (fun x => x.2) h) (by simp)
  | none =>
    rw [herr] at h
    dsimp only [] at h
    have hdb2 : mark_missing (insert_new_files db (current.filter
        (fun p2 => !(db_files db).contains p2))).1
        ((db_files db).filter (fun p2 => !current.contains p2)) = db2 :=
      congrArg Prod.fst h
    have hins : insert_new_files db (current.filter (fun p2 => !(db_files db).contains p2))
        = ((insert_new_files db (current.filter
            (fun p2 => !(db_files db).contains p2))).1, none) :=
      Prod.ext rfl herr
    have hpf : p ∈ current.filter (fun p2 => !(db_files db).contains p2) := by
      apply List.mem_filter.mpr
      refine ⟨hp, ?_⟩
      have hnot : p ∉ db_files db := by
        intro hmem
        obtain ⟨m, hmf, hmp⟩ := List.mem_map.mp hmem
        exact hfresh m (List.mem_filter.mp hmf).1 hmp
      have hcontains : (db_files db).contains p = false := by
        unfold List.contains
        rw [List.elem_eq_mem]
        exact decide_eq_false hnot
      rw [hcontains]
      rfl
    obtain ⟨m, hm, hmp, hmd⟩ := insert_new_files_mem _ _ _ hins p hpf
    have hcond : (((db_files db).filter
        (fun p2 => !current.contains p2)).contains m.path) = false := by
      rw [hmp]
      have hnot : p ∉ (db_files db).filter (fun p2 => !current.contains p2) := by
        intro hmem
        have h2 := (List.mem_filter.mp hmem).2
        rw [Bool.not_eq_true'] at h2
        have hmemc : current.contains p = true := by
          unfold List.contains
          rw [List.elem_eq_mem]
          exact decide_eq_true hp
        rw [h2] at hmemc
        exact absurd hmemc (by simp)
      unfold List.contains
      rw [List.elem_eq_mem]
      exact decide_eq_false hnot
    constructor
    · refine ⟨m, ?_, hmp, hmd⟩
      rw [← hdb2]
      unfold mark_missing
      dsimp only []
      have h3 := List.mem_map_of_mem (fun m2 =>
        if (((db_files db).filter (fun p2 => !current.contains p2)).contains m2.path) = true
        then { m2 with is_deleted := true } else m2) hm
      dsimp only [] at h3
      rw [hcond] at h3
      simp only [Bool.false_eq_true, if_false] at h3
      exact h3
    · rw [← hdb2]
      show (mark_missing _ _).sent_media = db.sent_media
      unfold mark_missing
      dsimp only []
      exact insert_new_files_sent _ _ _ _ hins

/-- C10: the cleanup rename keeps the stem, inserts the `_Sent` marker and
preserves the extension exactly — so the renamed file still passes the
scanner's extension filter, and whenever no blacklist substring occurs in
the renamed final component, a subsequent successful scan whose listing
contains the renamed path (not yet a catalog row) re-adds it as a fresh
non-deleted row that, the sent history being empty after the cleanup that
renamed it, is again sendable. -/
theorem c10_renamed_rescannable (bl : List String) (p : String)
    (hvalid : is_valid_file bl p = true)
    (hbl : ∀ b ∈ bl, strContains (pathName (renamedName p)) b = false)
    (db : DB) (current : List String) (db2 : DB)
    (hsent : db.sent_media = [])
    (hfresh : ∀ m ∈ db.media, m.path ≠ renamedName p)
    (hmem : renamedName p ∈ current)
    (hupd : update_database db current = (db2, none)) :
    pySuffix (pathName (renamedName p)) = pySuffix (pathName p) ∧
    pyStem (pathName (renamedName p)) = pyStem (pathName p) ++ sent_suffix ∧
    is_valid_file bl (renamedName p) = true ∧
    ∃ m, m ∈ db2.media ∧ m.path = renamedName p ∧ m.is_deleted = false ∧
      ∀ s ∈ db2.sent_media, s.media_id ≠ m.id := by
  have hext : valid_ext.contains (strLower (pySuffix (pathName p))) = true := by
    have h2 := hvalid
    unfold is_valid_file at h2
    rw [Bool.and_eq_true] at h2
    exact h2.1
  have hsufne : pySuffix (pathName p) ≠ "" := by
    intro h0
    rw [h0] at hext
    exact absurd hext (by decide)
  obtain ⟨bf, af, hsd, hbf, haf, hstem, hsuf⟩ := pyStemSuffix_valid _ hsufne
  have hnewname : pyStem (pathName p) ++ sent_suffix ++ pySuffix (pathName p)
      = (⟨bf⟩ : String) ++ sent_suffix ++ (⟨'.' :: af⟩ : String) := by
    rw [hstem, hsuf]
  have hname_chars : (pathName p).toList = bf ++ '.' :: af :=
    splitLastDot_concat _ _ _ hsd
  have hslash : ∀ c ∈ (pyStem (pathName p) ++ sent_suffix
      ++ pySuffix (pathName p)).toList, c ≠ '/' := by
    rw [hnewname]
    intro c hc
    have hc2 : c ∈ (bf ++ sent_suffix.data) ++ ('.' :: af) := by
      have he : (((⟨bf⟩ : String) ++ sent_suffix ++ (⟨'.' :: af⟩ : String)).toList)
          = (bf ++ sent_suffix.data) ++ ('.' :: af) := by
        show (((⟨bf⟩ : String) ++ sent_suffix ++ (⟨'.' :: af⟩ : String)).data) = _
        rw [String.data_append, String.data_append]
      rw [he] at hc
      exact hc
    have hsent_slash : ∀ c2 ∈ sent_suffix.data, c2 ≠ '/' := by decide
    rcases List.mem_append.mp hc2 with h1 | h1
    · rcases List.mem_append.mp h1 with h2 | h2
      · exact pathName_no_slash p c (by rw [hname_chars]; exact List.mem_append_left _ h2)
      · exact hsent_slash c h2
    · rcases List.mem_cons.mp h1 with h2 | h2
      · rw [h2]
        decide
      · exact pathName_no_slash p c
          (by rw [hname_chars]; exact List.mem_append_right _ (List.mem_cons_of_mem _ h2))
  have hpn : pathName (renamedName p)
      = pyStem (pathName p) ++ sent_suffix ++ pySuffix (pathName p) :=
    pathName_withName _ _ hslash
  have hsplit := pyStemSuffix_renamed bf af (splitLastDot_after_nodot _ _ _ hsd) haf
  have hsuffix_eq : pySuffix (pathName (renamedName p)) = pySuffix (pathName p) := by
    rw [hpn, hnewname, hsuf]
    unfold pySuffix
    rw [hsplit]
  have hstem_eq : pyStem (pathName (renamedName p)) = pyStem (pathName p) ++ sent_suffix := by
    rw [hpn, hnewname, hstem]
    unfold pyStem
    rw [hsplit]
  refine ⟨hsuffix_eq, hstem_eq, ?_, ?_⟩
  · unfold is_valid_file
    rw [Bool.and_eq_true]
    constructor
    · rw [hsuffix_eq]
      exact hext
    · apply List.all_eq_true.mpr
      intro b hb
      rw [Bool.not_eq_true']
      exact hbl b hb
  · obtain ⟨⟨m, hm, hmp, hmd⟩, hsame⟩ :=
      update_database_added db current db2 hupd (renamedName p) hmem hfresh
    refine ⟨m, hm, hmp, hmd, ?_⟩
    intro srow hs
    rw [hsame, hsent] at hs
    exact absurd hs (List.not_mem_nil srow)

/-- Witness for C10: `"a.jpg"` renames to `"a_Sent.jpg"`, which still
passes the extension filter. -/
theorem c10_renamed_rescannable_witness :
    is_valid_file [] (renamedName "a.jpg") = true :=
  (c10_renamed_rescannable [] "a.jpg" (by decide) (by decide)
      ⟨[], [], 1, 0⟩ ["a_Sent.jpg"] ⟨[⟨1, "a_Sent.jpg", 0, false⟩], [], 2, 1⟩
      rfl (by decide) (by decide) (by decide)).2.2.1


end MediaShuffler
